import Mathlib

/-!
Verification of the Retrieval & Diversification Engine of the drip_directive
repository: embedding math (app/core/vector_search.py), the MMR selector,
the cooldown tracker, and the hybrid ranking block of
generate_recommendation_task (app/core/recommendations.py).

Floating-point arithmetic of the source is idealized as real arithmetic;
Python lists, dicts and JSON values are modelled by Lean lists, association
lists and an inductive JSON type.  Python's json.loads is modelled by a
recursive-descent RFC-8259 parser (without Python's NaN/Infinity extension).
-/

namespace Drip

/-- A decoded JSON value, as produced by json.loads.  Numbers are modelled
as rationals (every IEEE float is rational). -/
inductive Json where
  | null : Json
  | bool : Bool → Json
  | num : ℚ → Json
  | str : String → Json
  | arr : List Json → Json
  | obj : List (String × Json) → Json

mutual

/-- Fuel-bounded Boolean equality on JSON values (kernel-computable). -/
def Json.beq : ℕ → Json → Json → Bool
  | _, .null, .null => true
  | _, .bool x, .bool y => x == y
  | _, .num x, .num y => x == y
  | _, .str x, .str y => x == y
  | fuel + 1, .arr xs, .arr ys => Json.beqL fuel xs ys
  | fuel + 1, .obj xs, .obj ys => Json.beqKV fuel xs ys
  | _, _, _ => false
termination_by structural fuel => fuel

/-- Fuel-bounded Boolean equality on JSON arrays. -/
def Json.beqL : ℕ → List Json → List Json → Bool
  | _, [], [] => true
  | fuel + 1, x :: xs, y :: ys => Json.beq fuel x y && Json.beqL fuel xs ys
  | _, _, _ => false
termination_by structural fuel => fuel

/-- Fuel-bounded Boolean equality on JSON object member lists. -/
def Json.beqKV : ℕ → List (String × Json) → List (String × Json) → Bool
  | _, [], [] => true
  | fuel + 1, (k, v) :: xs, (k2, v2) :: ys =>
    k == k2 && Json.beq fuel v v2 && Json.beqKV fuel xs ys
  | _, _, _ => false
termination_by structural fuel => fuel

end

theorem Json.beq_iff (fuel : ℕ) :
    (∀ a b : Json, sizeOf a ≤ fuel → (Json.beq fuel a b = true ↔ a = b)) ∧
    (∀ xs ys : List Json, sizeOf xs ≤ fuel → (Json.beqL fuel xs ys = true ↔ xs = ys)) ∧
    (∀ xs ys : List (String × Json), sizeOf xs ≤ fuel →
      (Json.beqKV fuel xs ys = true ↔ xs = ys)) := by
  induction fuel with
  | zero =>
    refine ⟨fun a b h => ?_, fun xs ys h => ?_, fun xs ys h => ?_⟩
    · cases a <;> simp at h
    · cases xs <;> simp at h
    · cases xs <;> simp at h
  | succ fuel ih =>
    obtain ⟨ihV, ihL, ihKV⟩ := ih
    refine ⟨fun a b h => ?_, fun xs ys h => ?_, fun xs ys h => ?_⟩
    · cases a <;> cases b <;> simp only [Json.beq, beq_iff_eq] <;>
        try simp only [reduceCtorEq, Bool.false_eq_true, false_iff, ne_eq, not_false_eq_true,
          Json.bool.injEq, Json.num.injEq, Json.str.injEq, Json.arr.injEq, Json.obj.injEq]
      case arr.arr xs ys =>
        have hx : sizeOf xs ≤ fuel := by simp at h; omega
        simpa using ihL xs ys hx
      case obj.obj xs ys =>
        have hx : sizeOf xs ≤ fuel := by simp at h; omega
        simpa using ihKV xs ys hx
    · cases xs with
      | nil => cases ys <;> simp [Json.beqL]
      | cons x xs =>
        cases ys with
        | nil => simp [Json.beqL]
        | cons y ys =>
          have hx : sizeOf x ≤ fuel := by simp at h; omega
          have hxs : sizeOf xs ≤ fuel := by simp at h; omega
          simp [Json.beqL, ihV x y hx, ihL xs ys hxs]
    · cases xs with
      | nil => cases ys <;> simp [Json.beqKV]
      | cons x xs =>
        cases ys with
        | nil => simp [Json.beqKV]
        | cons y ys =>
          obtain ⟨k, v⟩ := x
          obtain ⟨k2, v2⟩ := y
          have hv : sizeOf v ≤ fuel := by simp at h; omega
          have hxs : sizeOf xs ≤ fuel := by simp at h; omega
          simp [Json.beqKV, ihV v v2 hv, ihKV xs ys hxs, and_assoc]

noncomputable instance : DecidableEq Json := fun a b =>
  decidable_of_iff (Json.beq (sizeOf a) a b = true) ((Json.beq_iff (sizeOf a)).1 a b le_rfl)

/-- Skip JSON whitespace (space, tab, newline, carriage return). -/
def skipWs : List Char → List Char
  | c :: cs =>
    if c = ' ' ∨ c = '\t' ∨ c = '\n' ∨ c = '\r' then skipWs cs else c :: cs
  | [] => []

/-- Decimal digit test. -/
def isDigitChar (c : Char) : Bool := '0' ≤ c && c ≤ '9'

/-- Value of a decimal digit character. -/
def digitVal (c : Char) : ℕ := c.toNat - '0'.toNat

/-- Take a maximal run of decimal digits. -/
def takeDigits : List Char → List ℕ × List Char
  | c :: cs =>
    if isDigitChar c then
      let p := takeDigits cs
      (digitVal c :: p.1, p.2)
    else ([], c :: cs)
  | [] => ([], [])

/-- Digits to a natural number, most significant first. -/
def digitsToNat (ds : List ℕ) : ℕ := ds.foldl (fun a d => 10 * a + d) 0

/-- Parse the optional fraction part (".digits"). -/
def parseFrac : List Char → Option (List ℕ × List Char)
  | '.' :: r =>
    let p := takeDigits r
    if p.1 = [] then none else some p
  | cs => some ([], cs)

/-- Parse the optional exponent part ("e[+-]digits"). -/
def parseExp : List Char → Option (ℤ × List Char)
  | c :: r =>
    if c = 'e' ∨ c = 'E' then
      let sp : ℤ × List Char :=
        match r with
        | '+' :: r2 => (1, r2)
        | '-' :: r2 => (-1, r2)
        | _ => (1, r)
      let p := takeDigits sp.2
      if p.1 = [] then none else some (sp.1 * (digitsToNat p.1 : ℤ), p.2)
    else some (0, c :: r)
  | [] => some (0, [])

/-- Parse a JSON number into a rational.  The value
sign * (intDigits.fracDigits) * 10^exp is assembled with integer arithmetic
and one mkRat so that the result is kernel-computable. -/
def parseNumber (cs : List Char) : Option (ℚ × List Char) :=
  let sp : ℤ × List Char :=
    match cs with
    | '-' :: r => (-1, r)
    | _ => (1, cs)
  let ip := takeDigits sp.2
  match ip.1 with
  | [] => none
  | d :: rest =>
    if d = 0 ∧ rest ≠ [] then none
    else
      match parseFrac ip.2 with
      | none => none
      | some (fds, cs3) =>
        match parseExp cs3 with
        | none => none
        | some (e, cs4) =>
          let base : ℤ := sp.1 * (digitsToNat (ip.1 ++ fds) : ℤ)
          let net : ℤ := e - (fds.length : ℤ)
          let q : ℚ :=
            if 0 ≤ net then mkRat (base * (10 : ℤ) ^ net.toNat) 1
            else mkRat base ((10 : ℕ) ^ (-net).toNat)
          some (q, cs4)

/-- Value of a hexadecimal digit character. -/
def parseHex (c : Char) : Option ℕ :=
  if isDigitChar c then some (digitVal c)
  else if 'a' ≤ c ∧ c ≤ 'f' then some (c.toNat - 'a'.toNat + 10)
  else if 'A' ≤ c ∧ c ≤ 'F' then some (c.toNat - 'A'.toNat + 10)
  else none

/-- Single-character escape codes. -/
def escChar (c : Char) : Option Char :=
  if c = '"' then some '"'
  else if c = '\\' then some '\\'
  else if c = '/' then some '/'
  else if c = 'b' then some (Char.ofNat 8)
  else if c = 'f' then some (Char.ofNat 12)
  else if c = 'n' then some '\n'
  else if c = 'r' then some '\r'
  else if c = 't' then some '\t'
  else none

/-- Parse the body of a JSON string after the opening quote; returns the
content and the remainder after the closing quote. -/
def parseStringBody : List Char → Option (List Char × List Char)
  | [] => none
  | c :: r =>
    if c = '"' then some ([], r)
    else if c = '\\' then
      match r with
      | [] => none
      | e :: r1 =>
        if e = 'u' then
          match r1 with
          | a :: b :: c2 :: d :: r2 =>
            match parseHex a, parseHex b, parseHex c2, parseHex d with
            | some ha, some hb, some hc, some hd =>
              match parseStringBody r2 with
              | some (s, rest) =>
                some (Char.ofNat (4096 * ha + 256 * hb + 16 * hc + hd) :: s, rest)
              | none => none
            | _, _, _, _ => none
          | _ => none
        else
          match escChar e with
          | some ch =>
            match parseStringBody r1 with
            | some (s, rest) => some (ch :: s, rest)
            | none => none
          | none => none
    else if c.toNat < 32 then none
    else
      match parseStringBody r with
      | some (s, rest) => some (c :: s, rest)
      | none => none

mutual

/-- Parse one JSON value (fuel-bounded recursive descent). -/
def parseValue : ℕ → List Char → Option (Json × List Char)
  | 0, _ => none
  | fuel + 1, cs =>
    match skipWs cs with
    | [] => none
    | c :: r =>
      if c = 'n' then
        match r with
        | 'u' :: 'l' :: 'l' :: r2 => some (.null, r2)
        | _ => none
      else if c = 't' then
        match r with
        | 'r' :: 'u' :: 'e' :: r2 => some (.bool true, r2)
        | _ => none
      else if c = 'f' then
        match r with
        | 'a' :: 'l' :: 's' :: 'e' :: r2 => some (.bool false, r2)
        | _ => none
      else if c = '"' then
        match parseStringBody r with
        | some (s, rest) => some (.str (String.mk s), rest)
        | none => none
      else if c = '[' then
        match skipWs r with
        | ']' :: r2 => some (.arr [], r2)
        | r1 =>
          match parseElems fuel r1 with
          | some (vs, rest) => some (.arr vs, rest)
          | none => none
      else if c = '{' then
        match skipWs r with
        | '}' :: r2 => some (.obj [], r2)
        | r1 =>
          match parseMembers fuel r1 with
          | some (kvs, rest) => some (.obj kvs, rest)
          | none => none
      else
        match parseNumber (c :: r) with
        | some (q, rest) => some (.num q, rest)
        | none => none
termination_by structural fuel => fuel

/-- Parse a nonempty comma-separated element list and the closing bracket. -/
def parseElems : ℕ → List Char → Option (List Json × List Char)
  | 0, _ => none
  | fuel + 1, cs =>
    match parseValue fuel cs with
    | none => none
    | some (v, rest) =>
      match skipWs rest with
      | ',' :: r2 =>
        match parseElems fuel r2 with
        | some (vs, r3) => some (v :: vs, r3)
        | none => none
      | ']' :: r2 => some ([v], r2)
      | _ => none
termination_by structural fuel => fuel

/-- Parse a nonempty comma-separated member list and the closing brace. -/
def parseMembers : ℕ → List Char → Option (List (String × Json) × List Char)
  | 0, _ => none
  | fuel + 1, cs =>
    match skipWs cs with
    | '"' :: r =>
      match parseStringBody r with
      | none => none
      | some (k, r1) =>
        match skipWs r1 with
        | ':' :: r2 =>
          match parseValue fuel r2 with
          | none => none
          | some (v, r3) =>
            match skipWs r3 with
            | ',' :: r4 =>
              match parseMembers fuel r4 with
              | some (kvs, r5) => some ((String.mk k, v) :: kvs, r5)
              | none => none
            | '}' :: r4 => some ([(String.mk k, v)], r4)
            | _ => none
        | _ => none
    | _ => none
termination_by structural fuel => fuel

end

/-- Model of Python json.loads: parse a complete JSON document, requiring
the whole input (up to trailing whitespace) to be consumed.  Returns none
exactly where json.loads raises JSONDecodeError (modulo Python's non-RFC
NaN/Infinity extension, which this model rejects). -/
def json_loads (s : String) : Option Json :=
  match parseValue (2 * s.length + 2) s.toList with
  | some (v, rest) => if skipWs rest = [] then some v else none
  | none => none

/-- Model of vector_search.parse_embedding: returns none for a missing or
falsy (empty) string and for undecodable input, otherwise the decoded JSON
value unchanged (the try/except around json.loads is absorbed into the
Option result of json_loads). -/
def parse_embedding (embedding_str : Option String) : Option Json :=
  match embedding_str with
  | none => none
  | some s => if s = "" then none else json_loads s

/-! ## Data model (app/models.py, the fields used by the core) -/

/-- models.ProcessingStatus. -/
inductive ProcessingStatus where
  | pending
  | processing
  | completed
  | failed
deriving DecidableEq

/-- models.WardrobeItem, restricted to the columns read by vector_search.py. -/
structure WardrobeItem where
  id : ℤ
  user_id : ℤ
  processing_status : ProcessingStatus
  item_embedding : Option String
deriving DecidableEq

instance : Inhabited WardrobeItem := ⟨⟨0, 0, ProcessingStatus.pending, none⟩⟩

/-- models.Recommendation, restricted to the columns read by vector_search.py. -/
structure Recommendation where
  user_id : ℤ
  wardrobe_item_ids : Option String
  created_at : ℤ
deriving DecidableEq

/-! ## Python's stable sort

Python's list.sort(key=k, reverse=True) is a stable sort, descending by key.
Any stable sort is extensionally determined by the key relation, so it is
modelled by List.insertionSort with the non-strict descending key
relation. -/

/-- The descending-by-key relation of list.sort(key=key, reverse=True). -/
def keyDesc {α β : Type} [LinearOrder β] (key : α → β) : α → α → Prop :=
  fun a b => key b ≤ key a

instance keyDesc_decidable {α β : Type} [LinearOrder β] (key : α → β) :
    DecidableRel (keyDesc key) :=
  fun a b => inferInstanceAs (Decidable (key b ≤ key a))

instance keyDesc_total {α β : Type} [LinearOrder β] (key : α → β) :
    IsTotal α (keyDesc key) :=
  ⟨fun a b => le_total (key b) (key a)⟩

instance keyDesc_trans {α β : Type} [LinearOrder β] (key : α → β) :
    IsTrans α (keyDesc key) :=
  ⟨fun _ _ _ h1 h2 => le_trans h2 h1⟩

/-! ## Embedding math (vector_search.cosine_similarity), floats idealized as ℝ -/

/-- Model of vector_search.cosine_similarity.  `not vec1` / `not vec2` is
Python truthiness on lists, i.e. emptiness.  Total function: the source
raises no exception on the guarded cases. -/
noncomputable def cosine_similarity (vec1 vec2 : List ℝ) : ℝ :=
  if vec1 = [] ∨ vec2 = [] ∨ vec1.length ≠ vec2.length then 0
  else
    let dot_product := (List.zipWith (fun a b => a * b) vec1 vec2).sum
    let magnitude1 := Real.sqrt (vec1.map (fun a => a * a)).sum
    let magnitude2 := Real.sqrt (vec2.map (fun b => b * b)).sum
    if magnitude1 = 0 ∨ magnitude2 = 0 then 0
    else dot_product / (magnitude1 * magnitude2)

/-- Elements of a JSON array as rationals, if every element is a number. -/
def numElems : List Json → Option (List ℚ)
  | [] => some []
  | .num q :: rest => (numElems rest).map (fun l => q :: l)
  | _ => none

/-- A decoded JSON value as a numeric vector, if it is an array of numbers. -/
def Json.asVecQ : Json → Option (List ℚ)
  | .arr xs => numElems xs
  | _ => none

/-- parse_embedding restricted to the numeric-array fragment actually usable
by the arithmetic in search/MMR (a decoded non-array, non-numeric value would
raise TypeError inside the source's arithmetic, outside the functions'
defined behaviour; it is treated as absent here). -/
def parse_embedding_vecQ (s : Option String) : Option (List ℚ) :=
  (parse_embedding s).bind Json.asVecQ

/-- The numeric-array fragment of parse_embedding, with entries cast to ℝ. -/
noncomputable def parse_embedding_vec (s : Option String) : Option (List ℝ) :=
  (parse_embedding_vecQ s).map (List.map (fun q : ℚ => (q : ℝ)))

/-- Parsed embedding when it is truthy (Python `if vec:` on the parse result:
a nonempty vector). -/
noncomputable def truthyVec (s : Option String) : Option (List ℝ) :=
  match parse_embedding_vec s with
  | some v => if v = [] then none else some v
  | none => none

/-! ## vector_search.vector_search_wardrobe_items

The SQLAlchemy query is modelled as a filter over the item table in database
order; `results.sort(key=..., reverse=True)` is Python's stable descending
sort, modelled by `List.insertionSort` with the non-strict descending
relation (extensionally equal to any stable sort by the same key). -/

/-- The base SQLAlchemy filter: the user's completed items with a stored
embedding. -/
def partitionFilter (db : List WardrobeItem) (user_id : ℤ) : List WardrobeItem :=
  db.filter (fun it =>
    decide (it.user_id = user_id ∧ it.processing_status = ProcessingStatus.completed ∧
      it.item_embedding ≠ none))

/-- `if exclude_ids:` -- the id-exclusion filter is added to the query only
when exclude_ids is truthy (present and nonempty). -/
def applyExclusion (exclude_ids : Option (List ℤ)) (base : List WardrobeItem) :
    List WardrobeItem :=
  match exclude_ids with
  | some l => if l = [] then base else base.filter (fun it => decide (it.id ∉ l))
  | none => base

/-- The per-item body of the similarity loop: skip a non-truthy parsed
embedding, keep (item, similarity) when the similarity clears the floor. -/
noncomputable def scoreItem (query_embedding : List ℝ) (min_similarity : ℝ)
    (it : WardrobeItem) : Option (WardrobeItem × ℝ) :=
  match truthyVec it.item_embedding with
  | some item_vec =>
    let similarity := cosine_similarity query_embedding item_vec
    if min_similarity ≤ similarity then some (it, similarity) else none
  | none => none

noncomputable def vector_search_wardrobe_items (db : List WardrobeItem)
    (user_id : ℤ) (query_embedding : List ℝ) (limit : ℕ)
    (exclude_ids : Option (List ℤ)) (min_similarity : ℝ) :
    List (WardrobeItem × ℝ) :=
  let items := applyExclusion exclude_ids (partitionFilter db user_id)
  let results := items.filterMap (scoreItem query_embedding min_similarity)
  (List.insertionSort (keyDesc Prod.snd) results).take limit

/-! ## vector_search.apply_mmr -/

/-- The MMR score formula of apply_mmr. -/
noncomputable def mmr_score (lambda_param relevance diversity_penalty : ℝ) : ℝ :=
  lambda_param * relevance - (1 - lambda_param) * diversity_penalty

/-- max_sim_selected: fold of max over the already selected items whose
stored embedding re-parses to a truthy vector, starting at 0.0. -/
noncomputable def maxSimSelected (item_vec : List ℝ)
    (selected : List (WardrobeItem × ℝ)) : ℝ :=
  selected.foldl (fun m p =>
    match truthyVec p.1.item_embedding with
    | some selected_vec => max m (cosine_similarity item_vec selected_vec)
    | none => m) 0

/-- max_sim_recent: fold of max over the parsed recent vectors, from 0.0. -/
noncomputable def maxSimRecent (item_vec : List ℝ)
    (recent_vecs : List (List ℝ)) : ℝ :=
  recent_vecs.foldl (fun m recent_vec =>
    max m (cosine_similarity item_vec recent_vec)) 0

/-- The mmr_score of one candidate of the inner loop, or none when the
candidate's embedding is skipped (`if not item_vec: continue`). -/
noncomputable def candidateScore (selected : List (WardrobeItem × ℝ))
    (recent_vecs : List (List ℝ)) (lambda_param : ℝ)
    (p : WardrobeItem × ℝ) : Option ℝ :=
  match truthyVec p.1.item_embedding with
  | none => none
  | some item_vec =>
    some (mmr_score lambda_param p.2
      (max (maxSimSelected item_vec selected) (maxSimRecent item_vec recent_vecs)))

/-- One update of the (best_score, best_idx) accumulator: skip a candidate
without a score (`continue`), otherwise take (score, idx) on a strict
improvement (`if mmr_score > best_score`). -/
noncomputable def stepAcc {α : Type} (f : α → Option ℝ) (i : ℕ) (b : ℝ × ℕ) (x : α) :
    ℝ × ℕ :=
  match f x with
  | none => b
  | some s => if b.1 < s then (s, i) else b

/-- The (best_score, best_idx) accumulator loop of apply_mmr, starting from
the sentinel (-1, 0) and updating on a strict improvement only. -/
noncomputable def selectBestAux {α : Type} (f : α → Option ℝ) :
    ℕ → ℝ × ℕ → List α → ℝ × ℕ
  | _, b, [] => b
  | i, b, x :: xs => selectBestAux f (i + 1) (stepAcc f i b x) xs

/-- (best_score, best_idx) over the whole remaining list. -/
noncomputable def selectBest {α : Type} (f : α → Option ℝ) (remaining : List α) : ℝ × ℕ :=
  selectBestAux f 0 (-1, 0) remaining

theorem selectBestAux_idx {α : Type} (f : α → Option ℝ) :
    ∀ (xs : List α) (i : ℕ) (b : ℝ × ℕ),
      (selectBestAux f i b xs).2 = b.2 ∨
        (i ≤ (selectBestAux f i b xs).2 ∧ (selectBestAux f i b xs).2 < i + xs.length) := by
  intro xs
  induction xs with
  | nil => intro i b; exact Or.inl rfl
  | cons x xs ih =>
    intro i b
    cases hfx : f x with
    | none =>
      have hstep : stepAcc f i b x = b := by simp [stepAcc, hfx]
      simp only [selectBestAux, hstep, List.length_cons]
      rcases ih (i + 1) b with h | h
      · exact Or.inl h
      · exact Or.inr ⟨by omega, by omega⟩
    | some s =>
      by_cases hlt : b.1 < s
      · have hstep : stepAcc f i b x = (s, i) := by simp [stepAcc, hfx, if_pos hlt]
        simp only [selectBestAux, hstep, List.length_cons]
        rcases ih (i + 1) (s, i) with h | h
        · exact Or.inr ⟨by rw [h], by rw [h]; omega⟩
        · exact Or.inr ⟨by omega, by omega⟩
      · have hstep : stepAcc f i b x = b := by simp [stepAcc, hfx, if_neg hlt]
        simp only [selectBestAux, hstep, List.length_cons]
        rcases ih (i + 1) b with h | h
        · exact Or.inl h
        · exact Or.inr ⟨by omega, by omega⟩

theorem selectBest_idx_lt {α : Type} (f : α → Option ℝ) (remaining : List α)
    (h : remaining ≠ []) : (selectBest f remaining).2 < remaining.length := by
  have hlen : 0 < remaining.length := List.length_pos.mpr h
  rcases selectBestAux_idx f remaining 0 (-1, 0) with h0 | h0
  · simpa [selectBest, h0] using hlen
  · simpa [selectBest] using h0.2

/-- The while loop of apply_mmr: pops remaining[best_idx] into selected until
k items are selected or the remaining list is exhausted.  Note the pop
happens unconditionally, with best_idx defaulting to 0. -/
noncomputable def mmrLoop (recent_vecs : List (List ℝ)) (lambda_param : ℝ) (k : ℕ)
    (selected remaining : List (WardrobeItem × ℝ)) : List (WardrobeItem × ℝ) :=
  if h : remaining = [] ∨ k ≤ selected.length then selected
  else
    let best_idx := (selectBest (candidateScore selected recent_vecs lambda_param) remaining).2
    mmrLoop recent_vecs lambda_param k
      (selected ++ [remaining.getD best_idx default])
      (remaining.eraseIdx best_idx)
termination_by remaining.length
decreasing_by
  have hne : remaining ≠ [] := fun hh => h (Or.inl hh)
  have hlt := selectBest_idx_lt (candidateScore selected recent_vecs lambda_param) remaining hne
  have hlen : 0 < remaining.length := List.length_pos.mpr hne
  rw [List.length_eraseIdx]
  simp only [if_pos hlt]
  omega

/-- Model of vector_search.apply_mmr.  query_embedding is accepted but, as in
the source, never read. -/
noncomputable def apply_mmr (candidates : List (WardrobeItem × ℝ))
    (query_embedding : List ℝ) (recent_embeddings : List String)
    (k : ℕ) (lambda_param : ℝ) : List (WardrobeItem × ℝ) :=
  if candidates = [] then []
  else
    let recent_vecs := recent_embeddings.filterMap (fun s => truthyVec (some s))
    mmrLoop recent_vecs lambda_param k [] candidates

/-! ## vector_search.get_recently_used_item_ids -/

/-- Insertion into the `used_ids` set, modelled as an insertion-ordered
deduplicated list (a deterministic refinement of CPython set iteration
order; the spec leaves the truncation order unspecified). -/
noncomputable def dedupInsert (acc : List Json) (x : Json) : List Json :=
  if x ∈ acc then acc else acc ++ [x]

/-- The ids contributed by one recommendation record: decode the stored JSON
(skipping a falsy or undecodable value), then take every element of every
inner list (`isinstance(outfit_ids, list)`).  Iterating a decoded non-array
either yields no lists (strings, objects) or raises TypeError, which the
source catches before any id is added; both give no contribution. -/
def recordItemIdGroups (s : Option String) : List Json :=
  match s with
  | none => []
  | some str =>
    if str = "" then []
    else
      match json_loads str with
      | some (.arr xs) =>
        (xs.filterMap (fun j => match j with | .arr ys => some ys | _ => none)).flatten
      | _ => []

/-- The num_recommendations most recent records of the user (order_by
created_at descending, modelled as a stable descending sort over database
order). -/
def recentRecsOf (db : List Recommendation) (user_id : ℤ) (num_recommendations : ℕ) :
    List Recommendation :=
  (List.insertionSort (keyDesc Recommendation.created_at)
    (db.filter (fun r => decide (r.user_id = user_id)))).take num_recommendations

/-- Model of vector_search.get_recently_used_item_ids.  The returned values
are JSON values, as in the source, which adds decoded elements to the set
without type validation. -/
noncomputable def get_recently_used_item_ids (db : List Recommendation) (user_id : ℤ)
    (num_recommendations : ℕ) (max_items : ℕ) : List Json :=
  let used_ids := (recentRecsOf db user_id num_recommendations).foldl
    (fun acc rec => (recordItemIdGroups rec.wardrobe_item_ids).foldl dedupInsert acc) []
  used_ids.take max_items

/-! ## The hybrid ranking block of generate_recommendation_task
(app/core/recommendations.py lines 203-243), modelled as a pure function of
the item-score map and the composer's outfits. -/

/-- Python round(x) on exact reals: round half to even. -/
noncomputable def pyRound (x : ℝ) : ℤ :=
  let f := ⌊x⌋
  let r := x - f
  if r < 1 / 2 then f
  else if 1 / 2 < r then f + 1
  else if Even f then f else f + 1

/-- Python round(x, 3) on exact reals. -/
noncomputable def round3 (x : ℝ) : ℝ := (pyRound (x * 1000) : ℝ) / 1000

/-- One outfit dict as produced by the LLM, restricted to the keys read by
the ranking block (`outfit.get("confidence_score", 0.5)` reads an optional
key). -/
structure Outfit where
  outfit_id : ℤ
  wardrobe_item_ids : List ℤ
  confidence_score : Option ℝ

/-- An outfit after the score-computation loop added the three score keys. -/
structure ScoredOutfit where
  outfit : Outfit
  vector_relevance : ℝ
  llm_confidence : ℝ
  combined_score : ℝ

/-- An outfit after rank assignment added the rank key. -/
structure RankedOutfit where
  scored : ScoredOutfit
  rank : ℤ

/-- The avg_vector_relevance computation: the neutral 0.5 only when the
score map or the id list is falsy; otherwise the mean of per-id lookups
defaulting to 0.0 (`item_scores.get(iid, 0.0)`). -/
noncomputable def avgRelevance (item_scores : List (ℤ × ℝ)) (item_ids : List ℤ) : ℝ :=
  if item_scores ≠ [] ∧ item_ids ≠ [] then
    let relevant_scores := item_ids.map (fun iid => ((item_scores.lookup iid).getD 0))
    if relevant_scores ≠ [] then relevant_scores.sum / relevant_scores.length else 0
  else 0.5

/-- The per-outfit score computation: combined score from the unrounded
values, stored fields rounded to 3 decimals. -/
noncomputable def scoreOutfit (item_scores : List (ℤ × ℝ)) (o : Outfit) : ScoredOutfit :=
  let avg_vector_relevance := avgRelevance item_scores o.wardrobe_item_ids
  let llm_confidence := o.confidence_score.getD 0.5
  let combined_score := 0.6 * avg_vector_relevance + 0.4 * llm_confidence
  ⟨o, round3 avg_vector_relevance, round3 llm_confidence, round3 combined_score⟩

/-- enumerate(outfits, 1): assign rank = position and overwrite outfit_id
with the rank. -/
def assignRanks : ℤ → List ScoredOutfit → List RankedOutfit
  | _, [] => []
  | n, s :: rest =>
    ⟨⟨⟨n, s.outfit.wardrobe_item_ids, s.outfit.confidence_score⟩,
      s.vector_relevance, s.llm_confidence, s.combined_score⟩, n⟩ :: assignRanks (n + 1) rest

/-- The ranking block: score every outfit, stable-sort by the stored
(rounded) combined score descending (`sort(key=lambda x:
x.get("combined_score", 0), reverse=True)`; the key is always present since
the scoring loop sets it on every outfit), then assign ranks 1..M and
overwrite outfit ids. -/
noncomputable def rank_outfits (item_scores : List (ℤ × ℝ)) (outfits : List Outfit) :
    List RankedOutfit :=
  assignRanks 1
    (List.insertionSort (keyDesc ScoredOutfit.combined_score)
      (outfits.map (scoreOutfit item_scores)))

/-! ## Stability of the modelled Python sort -/

theorem insertionSort_filter_eq_key {α β : Type} [LinearOrder β] [DecidableEq β]
    (key : α → β) (l : List α) (k : β) :
    (List.insertionSort (keyDesc key) l).filter (fun x => decide (key x = k)) =
      l.filter (fun x => decide (key x = k)) := by
  have hall : ∀ x ∈ l.filter (fun x => decide (key x = k)), key x = k := by
    intro x hx
    simpa using (List.mem_filter.mp hx).2
  have hpair : (l.filter (fun x => decide (key x = k))).Pairwise (keyDesc key) := by
    apply List.pairwise_of_forall_mem_list
    intro x hx y hy
    unfold keyDesc
    rw [hall x hx, hall y hy]
  have hsub : (l.filter (fun x => decide (key x = k))).Sublist
      (List.insertionSort (keyDesc key) l) :=
    List.sublist_insertionSort hpair (List.filter_sublist l)
  have hself : (l.filter (fun x => decide (key x = k))).filter
      (fun x => decide (key x = k)) = l.filter (fun x => decide (key x = k)) :=
    List.filter_eq_self.mpr (fun a ha => by simpa using hall a ha)
  have hsub2 := List.Sublist.filter (fun x => decide (key x = k)) hsub
  rw [hself] at hsub2
  have hlen : ((List.insertionSort (keyDesc key) l).filter
        (fun x => decide (key x = k))).length =
      (l.filter (fun x => decide (key x = k))).length :=
    (List.Perm.filter _ (List.perm_insertionSort _ l)).length_eq
  exact (hsub2.eq_of_length hlen.symm).symm

/-! ## C9: parse_embedding passes decoded values through unvalidated -/

/-- C9: parse_embedding performs no type validation: every decodable,
nonempty input string yields the decoded JSON value unchanged, whatever its
shape (in particular a bare number, which is no vector); none is returned
exactly for a missing string, the empty (falsy) string, or a failed
decode. -/
theorem parse_embedding_spec :
    parse_embedding none = none ∧
    parse_embedding (some "") = none ∧
    (∀ (s : String) (v : Json), s ≠ "" → json_loads s = some v →
      parse_embedding (some s) = some v) ∧
    (∀ s : String, json_loads s = none → parse_embedding (some s) = none) ∧
    (∃ (s : String) (v : Json), json_loads s = some v ∧ (∀ xs, v ≠ Json.arr xs) ∧
      parse_embedding (some s) = some v) := by
  refine ⟨rfl, by simp [parse_embedding], fun s v hs hj => ?_, fun s hj => ?_, ?_⟩
  · simp [parse_embedding, hs, hj]
  · by_cases hs : s = "" <;> simp [parse_embedding, hs, hj]
  · exact ⟨"3", .num 3, by decide, fun xs => by simp, by decide⟩

/-- Witness for C9: a decoded JSON object (not a vector) is returned
unchanged by parse_embedding. -/
theorem parse_embedding_spec_witness :
    parse_embedding (some "\x7b\"k\": [1]\x7d") =
      some (.obj [("k", .arr [.num 1])]) :=
  parse_embedding_spec.2.2.1 _ _ (by decide) (by decide)

/-! ## C7: cosine_similarity safety and bounds -/

theorem sumSq_nonneg (v : List ℝ) : 0 ≤ (v.map (fun a => a * a)).sum :=
  List.sum_nonneg (by
    intro x hx
    obtain ⟨y, _, rfl⟩ := List.mem_map.mp hx
    exact mul_self_nonneg y)

theorem sumSq_pos (v : List ℝ) (hx : ∃ x ∈ v, x ≠ 0) :
    0 < (v.map (fun a => a * a)).sum := by
  obtain ⟨x, hmem, hne⟩ := hx
  induction hmem with
  | head as =>
    simp only [List.map_cons, List.sum_cons]
    have h1 : 0 < x * x := mul_self_pos.mpr hne
    have h2 := sumSq_nonneg as
    linarith
  | tail b hmem ih =>
    simp only [List.map_cons, List.sum_cons]
    have h2 := mul_self_nonneg b
    linarith

theorem list_map_sum_range (f : ℝ → ℝ) :
    ∀ l : List ℝ, (l.map f).sum = ∑ i ∈ Finset.range l.length, f (l.getD i 0)
  | [] => by simp
  | x :: xs => by
    rw [List.map_cons, List.sum_cons, list_map_sum_range f xs, List.length_cons,
      Finset.sum_range_succ']
    simp [add_comm]

theorem list_zip_sum_range : ∀ (a b : List ℝ), a.length = b.length →
    (List.zipWith (fun x y => x * y) a b).sum =
      ∑ i ∈ Finset.range a.length, a.getD i 0 * b.getD i 0
  | [], [], _ => by simp
  | [], y :: ys, h => by simp at h
  | x :: xs, [], h => by simp at h
  | x :: xs, y :: ys, h => by
    rw [List.zipWith_cons_cons, List.sum_cons,
      list_zip_sum_range xs ys (by simpa using h), List.length_cons,
      Finset.sum_range_succ']
    simp [add_comm]

theorem list_cauchy_schwarz (a b : List ℝ) (h : a.length = b.length) :
    ((List.zipWith (fun x y => x * y) a b).sum) ^ 2 ≤
      (a.map (fun x => x * x)).sum * (b.map (fun x => x * x)).sum := by
  rw [list_zip_sum_range a b h, list_map_sum_range, list_map_sum_range, ← h]
  simpa [pow_two] using
    Finset.sum_mul_sq_le_sq_mul_sq (Finset.range a.length)
      (fun i => a.getD i 0) (fun i => b.getD i 0)

theorem cosine_similarity_zero_of_degenerate (a b : List ℝ)
    (h : a = [] ∨ b = [] ∨ a.length ≠ b.length) : cosine_similarity a b = 0 := by
  rw [cosine_similarity, if_pos h]

theorem cosine_similarity_zero_of_zero_magnitude (a b : List ℝ)
    (h : Real.sqrt ((a.map (fun x => x * x)).sum) = 0 ∨
      Real.sqrt ((b.map (fun x => x * x)).sum) = 0) : cosine_similarity a b = 0 := by
  rw [cosine_similarity]
  by_cases h1 : a = [] ∨ b = [] ∨ a.length ≠ b.length
  · rw [if_pos h1]
  · rw [if_neg h1]
    simp only []
    rw [if_pos h]

theorem cosine_similarity_eq_ratio (a b : List ℝ)
    (h1 : ¬(a = [] ∨ b = [] ∨ a.length ≠ b.length))
    (h2 : ¬(Real.sqrt ((a.map (fun x => x * x)).sum) = 0 ∨
      Real.sqrt ((b.map (fun x => x * x)).sum) = 0)) :
    cosine_similarity a b =
      (List.zipWith (fun x y => x * y) a b).sum /
        (Real.sqrt ((a.map (fun x => x * x)).sum) *
          Real.sqrt ((b.map (fun x => x * x)).sum)) := by
  rw [cosine_similarity, if_neg h1]
  simp only []
  rw [if_neg h2]

theorem zipWith_mul_self (v : List ℝ) :
    List.zipWith (fun x y => x * y) v v = v.map (fun x => x * x) := by
  induction v with
  | nil => rfl
  | cons x xs ih => simp [ih]

/-- C7: cosine_similarity returns 0.0 on an empty side, mismatched lengths
or a zero magnitude (and, being a total function of its arguments, never
raises); otherwise it is dot/(‖a‖·‖b‖); its value always lies in [-1, 1];
and it is exactly 1 on any pair (v, v) with v not the zero vector. -/
theorem cosine_similarity_spec :
    (∀ a b : List ℝ, a = [] ∨ b = [] ∨ a.length ≠ b.length →
      cosine_similarity a b = 0) ∧
    (∀ a b : List ℝ,
      Real.sqrt ((a.map (fun x => x * x)).sum) = 0 ∨
        Real.sqrt ((b.map (fun x => x * x)).sum) = 0 → cosine_similarity a b = 0) ∧
    (∀ a b : List ℝ, a ≠ [] → b ≠ [] → a.length = b.length →
      Real.sqrt ((a.map (fun x => x * x)).sum) ≠ 0 →
      Real.sqrt ((b.map (fun x => x * x)).sum) ≠ 0 →
      cosine_similarity a b =
        (List.zipWith (fun x y => x * y) a b).sum /
          (Real.sqrt ((a.map (fun x => x * x)).sum) *
            Real.sqrt ((b.map (fun x => x * x)).sum))) ∧
    (∀ a b : List ℝ, -1 ≤ cosine_similarity a b ∧ cosine_similarity a b ≤ 1) ∧
    (∀ v : List ℝ, (∃ x ∈ v, x ≠ 0) → cosine_similarity v v = 1) := by
  have hbounds : ∀ a b : List ℝ, -1 ≤ cosine_similarity a b ∧ cosine_similarity a b ≤ 1 := by
    intro a b
    by_cases h1 : a = [] ∨ b = [] ∨ a.length ≠ b.length
    · rw [cosine_similarity_zero_of_degenerate a b h1]; norm_num
    · by_cases h2 : Real.sqrt ((a.map (fun x => x * x)).sum) = 0 ∨
        Real.sqrt ((b.map (fun x => x * x)).sum) = 0
      · rw [cosine_similarity_zero_of_zero_magnitude a b h2]; norm_num
      · rw [cosine_similarity_eq_ratio a b h1 h2]
        push_neg at h1 h2
        have hlen : a.length = b.length := h1.2.2
        have hAnn := sumSq_nonneg a
        have hBnn := sumSq_nonneg b
        have hs1 : 0 < Real.sqrt ((a.map (fun x => x * x)).sum) :=
          lt_of_le_of_ne (Real.sqrt_nonneg _) (Ne.symm h2.1)
        have hs2 : 0 < Real.sqrt ((b.map (fun x => x * x)).sum) :=
          lt_of_le_of_ne (Real.sqrt_nonneg _) (Ne.symm h2.2)
        have hden : 0 < Real.sqrt ((a.map (fun x => x * x)).sum) *
            Real.sqrt ((b.map (fun x => x * x)).sum) := mul_pos hs1 hs2
        have habs : |(List.zipWith (fun x y => x * y) a b).sum| ≤
            Real.sqrt ((a.map (fun x => x * x)).sum) *
              Real.sqrt ((b.map (fun x => x * x)).sum) := by
          rw [← Real.sqrt_mul_self (le_of_lt hden)]
          rw [← Real.sqrt_sq_eq_abs]
          apply Real.sqrt_le_sqrt
          calc ((List.zipWith (fun x y => x * y) a b).sum) ^ 2 ≤
              (a.map (fun x => x * x)).sum * (b.map (fun x => x * x)).sum :=
                list_cauchy_schwarz a b hlen
            _ = Real.sqrt ((a.map (fun x => x * x)).sum) *
                  Real.sqrt ((b.map (fun x => x * x)).sum) *
                  (Real.sqrt ((a.map (fun x => x * x)).sum) *
                    Real.sqrt ((b.map (fun x => x * x)).sum)) := by
                rw [mul_mul_mul_comm, Real.mul_self_sqrt hAnn, Real.mul_self_sqrt hBnn]
        have hle := abs_le.mp habs
        constructor
        · rw [le_div_iff₀ hden]
          linarith [hle.1]
        · rw [div_le_one hden]
          exact hle.2
  refine ⟨fun a b h => cosine_similarity_zero_of_degenerate a b h,
    fun a b h => cosine_similarity_zero_of_zero_magnitude a b h,
    fun a b ha hb hlen hm1 hm2 => cosine_similarity_eq_ratio a b
      (by simp [ha, hb, hlen]) (by simp [hm1, hm2]),
    hbounds, ?_⟩
  intro v hv
  have hpos := sumSq_pos v hv
  have hvne : v ≠ [] := by
    rintro rfl
    simp at hpos
  have hm : Real.sqrt ((v.map (fun x => x * x)).sum) ≠ 0 := by
    intro h0
    rw [Real.sqrt_eq_zero'] at h0
    linarith
  rw [cosine_similarity_eq_ratio v v (by simp [hvne]) (by simp [hm]),
    zipWith_mul_self, Real.mul_self_sqrt (le_of_lt hpos)]
  exact div_self (ne_of_gt hpos)
/-! ## apply_mmr: the greedy selection loop -/

theorem selectBestAux_spec {α : Type} [Inhabited α] (f : α → Option ℝ) :
    ∀ (xs : List α) (i : ℕ) (b : ℝ × ℕ),
      (selectBestAux f i b xs = b ∧
        ∀ j, j < xs.length → ∀ s, f (xs.getD j default) = some s → s ≤ b.1) ∨
      (∃ j, j < xs.length ∧
        f (xs.getD j default) = some (selectBestAux f i b xs).1 ∧
        (selectBestAux f i b xs).2 = i + j ∧
        b.1 < (selectBestAux f i b xs).1 ∧
        (∀ j2, j2 < xs.length → ∀ s, f (xs.getD j2 default) = some s →
          s ≤ (selectBestAux f i b xs).1) ∧
        (∀ j2, j2 < j → ∀ s, f (xs.getD j2 default) = some s →
          s < (selectBestAux f i b xs).1)) := by
  intro xs
  induction xs with
  | nil =>
    intro i b
    exact Or.inl ⟨rfl, fun j hj => absurd hj (by simp)⟩
  | cons x xs ih =>
    intro i b
    have hrw : selectBestAux f i b (x :: xs) =
        selectBestAux f (i + 1) (stepAcc f i b x) xs := rfl
    cases hfx : f x with
    | none =>
      have hstep : stepAcc f i b x = b := by simp [stepAcc, hfx]
      rw [hrw, hstep]
      rcases ih (i + 1) b with ⟨heq, hall⟩ | ⟨j, hj, hfj, hidx, hgt, hbound, hmin⟩
      · left
        refine ⟨heq, fun j hj s hfs => ?_⟩
        cases j with
        | zero => rw [List.getD_cons_zero, hfx] at hfs; cases hfs
        | succ j2 =>
          exact hall j2 (by simpa using hj) s (by simpa using hfs)
      · right
        refine ⟨j + 1, by simpa using hj, by simpa using hfj, by rw [hidx]; omega,
          hgt, fun j2 hj2 s hfs => ?_, fun j2 hj2 s hfs => ?_⟩
        · cases j2 with
          | zero => rw [List.getD_cons_zero, hfx] at hfs; cases hfs
          | succ j3 => exact hbound j3 (by simpa using hj2) s (by simpa using hfs)
        · cases j2 with
          | zero => rw [List.getD_cons_zero, hfx] at hfs; cases hfs
          | succ j3 => exact hmin j3 (by omega) s (by simpa using hfs)
    | some sx =>
      by_cases hlt : b.1 < sx
      · have hstep : stepAcc f i b x = (sx, i) := by simp [stepAcc, hfx, if_pos hlt]
        rw [hrw, hstep]
        rcases ih (i + 1) (sx, i) with ⟨heq, hall⟩ | ⟨j, hj, hfj, hidx, hgt, hbound, hmin⟩
        · right
          refine ⟨0, by simp, ?_, ?_, ?_, fun j2 hj2 s hfs => ?_, fun j2 hj2 s hfs => ?_⟩
          · rw [heq, List.getD_cons_zero, hfx]
          · rw [heq]; simp
          · rw [heq]; exact hlt
          · cases j2 with
            | zero =>
              rw [List.getD_cons_zero, hfx] at hfs
              cases hfs
              rw [heq]
            | succ j3 =>
              have := hall j3 (by simpa using hj2) s (by simpa using hfs)
              rw [heq]
              exact this
          · omega
        · right
          refine ⟨j + 1, by simpa using hj, by simpa using hfj, by rw [hidx]; omega,
            lt_trans hlt hgt, fun j2 hj2 s hfs => ?_, fun j2 hj2 s hfs => ?_⟩
          · cases j2 with
            | zero =>
              rw [List.getD_cons_zero, hfx] at hfs
              cases hfs
              exact le_of_lt hgt
            | succ j3 => exact hbound j3 (by simpa using hj2) s (by simpa using hfs)
          · cases j2 with
            | zero =>
              rw [List.getD_cons_zero, hfx] at hfs
              cases hfs
              exact hgt
            | succ j3 => exact hmin j3 (by omega) s (by simpa using hfs)
      · have hstep : stepAcc f i b x = b := by simp [stepAcc, hfx, if_neg hlt]
        rw [hrw, hstep]
        rcases ih (i + 1) b with ⟨heq, hall⟩ | ⟨j, hj, hfj, hidx, hgt, hbound, hmin⟩
        · left
          refine ⟨heq, fun j hj s hfs => ?_⟩
          cases j with
          | zero =>
            rw [List.getD_cons_zero, hfx] at hfs
            cases hfs
            exact not_lt.mp hlt
          | succ j2 => exact hall j2 (by simpa using hj) s (by simpa using hfs)
        · right
          refine ⟨j + 1, by simpa using hj, by simpa using hfj, by rw [hidx]; omega,
            hgt, fun j2 hj2 s hfs => ?_, fun j2 hj2 s hfs => ?_⟩
          · cases j2 with
            | zero =>
              rw [List.getD_cons_zero, hfx] at hfs
              cases hfs
              exact le_of_lt (lt_of_le_of_lt (not_lt.mp hlt) hgt)
            | succ j3 => exact hbound j3 (by simpa using hj2) s (by simpa using hfs)
          · cases j2 with
            | zero =>
              rw [List.getD_cons_zero, hfx] at hfs
              cases hfs
              exact lt_of_le_of_lt (not_lt.mp hlt) hgt
            | succ j3 => exact hmin j3 (by omega) s (by simpa using hfs)

theorem selectBest_argmax {α : Type} [Inhabited α] (f : α → Option ℝ) (rem : List α)
    (hex : ∃ j, j < rem.length ∧ ∃ s, f (rem.getD j default) = some s ∧ -1 < s) :
    (selectBest f rem).2 < rem.length ∧
    f (rem.getD (selectBest f rem).2 default) = some (selectBest f rem).1 ∧
    (∀ j, j < rem.length → ∀ s, f (rem.getD j default) = some s →
      s ≤ (selectBest f rem).1) ∧
    (∀ j, j < rem.length → ∀ s, f (rem.getD j default) = some s →
      (selectBest f rem).1 ≤ s → (selectBest f rem).2 ≤ j) := by
  obtain ⟨j0, hj0, s0, hfs0, hgt0⟩ := hex
  rcases selectBestAux_spec f rem 0 (-1, 0) with ⟨heq, hall⟩ |
    ⟨j, hj, hfj, hidx, hgt, hbound, hmin⟩
  · exact absurd (hall j0 hj0 s0 hfs0) (by simpa using hgt0)
  · have hidx' : (selectBest f rem).2 = j := by simpa [selectBest] using hidx
    refine ⟨by rw [hidx']; exact hj, by rw [hidx']; exact hfj,
      fun j2 hj2 s hfs => hbound j2 hj2 s hfs, fun j2 hj2 s hfs hle => ?_⟩
    rw [hidx']
    by_contra hcon
    have hj2j : j2 < j := by omega
    exact absurd (hmin j2 hj2j s hfs) (not_lt.mpr hle)

theorem selectBest_fallback {α : Type} [Inhabited α] (f : α → Option ℝ) (rem : List α)
    (h : ∀ j, j < rem.length → ∀ s, f (rem.getD j default) = some s → s ≤ -1) :
    selectBest f rem = (-1, 0) := by
  rcases selectBestAux_spec f rem 0 (-1, 0) with ⟨heq, _⟩ |
    ⟨j, hj, hfj, _, hgt, _, _⟩
  · exact heq
  · exact absurd (h j hj _ hfj) (by simpa [selectBest] using hgt)

theorem getD_cons_eraseIdx_perm {α : Type} [Inhabited α] (l : List α) (i : ℕ)
    (h : i < l.length) : (l.getD i default :: l.eraseIdx i).Perm l := by
  have hsplit : l.take i ++ l.getD i default :: l.drop (i + 1) = l := by
    rw [List.getD_eq_getElem l default h, ← List.drop_eq_getElem_cons h,
      List.take_append_drop]
  rw [List.eraseIdx_eq_take_drop_succ]
  have hmid : (l.getD i default :: (l.take i ++ l.drop (i + 1))).Perm
      (l.take i ++ l.getD i default :: l.drop (i + 1)) := List.perm_middle.symm
  rw [hsplit] at hmid
  exact hmid

theorem mmrLoop_spec (recent_vecs : List (List ℝ)) (lambda_param : ℝ) (k : ℕ) :
    ∀ (n : ℕ) (remaining selected : List (WardrobeItem × ℝ)), remaining.length = n →
      ∃ picked,
        mmrLoop recent_vecs lambda_param k selected remaining = selected ++ picked ∧
        picked.Subperm remaining ∧
        picked.length = min (k - selected.length) remaining.length := by
  intro n
  induction n using Nat.strong_induction_on with
  | _ n ih =>
    intro remaining selected hlen
    by_cases hstop : remaining = [] ∨ k ≤ selected.length
    · refine ⟨[], ?_, List.nil_subperm, ?_⟩
      · rw [mmrLoop, dif_pos hstop, List.append_nil]
      · rcases hstop with h | h
        · simp [h]
        · simp only [List.length_nil]
          omega
    · have hne : remaining ≠ [] := fun hh => hstop (Or.inl hh)
      have hklt : selected.length < k := by
        rcases not_or.mp hstop with ⟨_, h2⟩
        omega
      have hilt : (selectBest (candidateScore selected recent_vecs lambda_param)
          remaining).2 < remaining.length := selectBest_idx_lt _ _ hne
      have hpos : 0 < remaining.length := List.length_pos.mpr hne
      have herase : (remaining.eraseIdx (selectBest
          (candidateScore selected recent_vecs lambda_param) remaining).2).length =
          remaining.length - 1 := by
        rw [List.length_eraseIdx, if_pos hilt]
      obtain ⟨picked, heq, hsub, hplen⟩ := ih (remaining.length - 1) (by omega)
        (remaining.eraseIdx (selectBest
          (candidateScore selected recent_vecs lambda_param) remaining).2)
        (selected ++ [remaining.getD (selectBest
          (candidateScore selected recent_vecs lambda_param) remaining).2 default])
        herase
      have hstep : mmrLoop recent_vecs lambda_param k selected remaining =
          mmrLoop recent_vecs lambda_param k
            (selected ++ [remaining.getD (selectBest
              (candidateScore selected recent_vecs lambda_param) remaining).2 default])
            (remaining.eraseIdx (selectBest
              (candidateScore selected recent_vecs lambda_param) remaining).2) := by
        rw [mmrLoop, dif_neg hstop]
      refine ⟨remaining.getD (selectBest
          (candidateScore selected recent_vecs lambda_param) remaining).2 default ::
          picked, ?_, ?_, ?_⟩
      · rw [hstep, heq, List.append_assoc, List.singleton_append]
      · have hperm := getD_cons_eraseIdx_perm remaining (selectBest
          (candidateScore selected recent_vecs lambda_param) remaining).2 hilt
        have hcons : (remaining.getD (selectBest
            (candidateScore selected recent_vecs lambda_param) remaining).2 default ::
            picked).Subperm
            (remaining.getD (selectBest
              (candidateScore selected recent_vecs lambda_param) remaining).2 default ::
              remaining.eraseIdx (selectBest
                (candidateScore selected recent_vecs lambda_param) remaining).2) :=
          (List.subperm_cons _).mpr hsub
        exact hcons.trans hperm.subperm
      · rw [List.length_cons, hplen, herase]
        simp only [List.length_append, List.length_singleton]
        omega

/-- C10: apply_mmr returns exactly min(k, #candidates) pairs, and the output
is a sub-permutation of the input candidate list: every returned pair is an
input pair with its relevance unchanged, and no input entry occurs more
often in the output than in the input. -/
theorem apply_mmr_count_spec (candidates : List (WardrobeItem × ℝ))
    (query_embedding : List ℝ) (recent_embeddings : List String) (k : ℕ)
    (lambda_param : ℝ) :
    (apply_mmr candidates query_embedding recent_embeddings k lambda_param).length =
      min k candidates.length ∧
    (apply_mmr candidates query_embedding recent_embeddings k lambda_param).Subperm
      candidates := by
  by_cases hc : candidates = []
  · subst hc
    simp [apply_mmr]
  · obtain ⟨picked, heq, hsub, hplen⟩ := mmrLoop_spec
      (recent_embeddings.filterMap fun s => truthyVec (some s)) lambda_param k
      candidates.length candidates [] rfl
    have happly : apply_mmr candidates query_embedding recent_embeddings k lambda_param =
        mmrLoop (recent_embeddings.filterMap fun s => truthyVec (some s))
          lambda_param k [] candidates := by
      rw [apply_mmr, if_neg hc]
    rw [happly, heq, List.nil_append]
    exact ⟨by rw [hplen]; simp, hsub⟩

/-! ## Concrete evaluation helpers -/

theorem parse_embedding_vec_eval (s : String) (qs : List ℚ)
    (h : parse_embedding_vecQ (some s) = some qs) :
    parse_embedding_vec (some s) = some (qs.map fun q : ℚ => (q : ℝ)) := by
  simp [parse_embedding_vec, h]

theorem truthyVec_eval (s : String) (qs : List ℚ)
    (h : parse_embedding_vecQ (some s) = some qs) (hne : qs ≠ []) :
    truthyVec (some s) = some (qs.map fun q : ℚ => (q : ℝ)) := by
  rw [truthyVec, parse_embedding_vec_eval s qs h]
  simp [hne]

theorem truthyVec_of_parse_fail (s : String)
    (h : parse_embedding_vecQ (some s) = none) : truthyVec (some s) = none := by
  simp [truthyVec, parse_embedding_vec, h]

theorem truthyVec_e1 : truthyVec (some "[1, 0]") = some [(1 : ℝ), 0] := by
  have h := truthyVec_eval "[1, 0]" [1, 0] (by decide) (by decide)
  simpa using h

theorem truthyVec_e2 : truthyVec (some "[0, 1]") = some [(0 : ℝ), 1] := by
  have h := truthyVec_eval "[0, 1]" [0, 1] (by decide) (by decide)
  simpa using h

theorem truthyVec_oops : truthyVec (some "oops") = none :=
  truthyVec_of_parse_fail _ (by decide)

theorem cos_e1_e1 : cosine_similarity [(1 : ℝ), 0] [1, 0] = 1 := by
  have hs : Real.sqrt ((([(1 : ℝ), 0]).map (fun x => x * x)).sum) = 1 := by
    norm_num [Real.sqrt_one]
  rw [cosine_similarity_eq_ratio _ _ (by simp) (by simp [hs])]
  rw [hs]
  norm_num

theorem cos_e2_e1 : cosine_similarity [(0 : ℝ), 1] [1, 0] = 0 := by
  have hs1 : Real.sqrt ((([(0 : ℝ), 1]).map (fun x => x * x)).sum) = 1 := by
    norm_num [Real.sqrt_one]
  have hs2 : Real.sqrt ((([(1 : ℝ), 0]).map (fun x => x * x)).sum) = 1 := by
    norm_num [Real.sqrt_one]
  rw [cosine_similarity_eq_ratio _ _ (by simp) (by simp [hs1, hs2])]
  norm_num

theorem cos_e1_e2 : cosine_similarity [(1 : ℝ), 0] [0, 1] = 0 := by
  have hs1 : Real.sqrt ((([(1 : ℝ), 0]).map (fun x => x * x)).sum) = 1 := by
    norm_num [Real.sqrt_one]
  have hs2 : Real.sqrt ((([(0 : ℝ), 1]).map (fun x => x * x)).sum) = 1 := by
    norm_num [Real.sqrt_one]
  rw [cosine_similarity_eq_ratio _ _ (by simp) (by simp [hs1, hs2])]
  norm_num

/-! ## C1: the greedy step of apply_mmr -/

/-- C1 (amended): at every greedy step, a candidate whose stored embedding
re-parses to a truthy vector is scored with penalty = max of the two
0.0-seeded maxima (so negative similarities are clamped at the 0.0 seeds,
and the penalty is 0.0 when both comparison sets are empty) and
score = lambda * relevance - (1 - lambda) * penalty; the loop pops the
candidate at best_idx; and whenever some candidate scores above the -1
sentinel, best_idx is the earliest index with the maximal score. -/
theorem apply_mmr_greedy_step_spec :
    (∀ (selected : List (WardrobeItem × ℝ)) (recent_vecs : List (List ℝ))
       (lambda_param : ℝ) (item : WardrobeItem) (relevance : ℝ) (item_vec : List ℝ),
       truthyVec item.item_embedding = some item_vec →
       candidateScore selected recent_vecs lambda_param (item, relevance) =
         some (mmr_score lambda_param relevance
           (max (maxSimSelected item_vec selected)
             (maxSimRecent item_vec recent_vecs)))) ∧
    (∀ item_vec : List ℝ,
       maxSimSelected item_vec [] = 0 ∧ maxSimRecent item_vec [] = 0) ∧
    (∀ (selected remaining : List (WardrobeItem × ℝ)) (recent_vecs : List (List ℝ))
       (lambda_param : ℝ) (k : ℕ),
       ¬(remaining = [] ∨ k ≤ selected.length) →
       mmrLoop recent_vecs lambda_param k selected remaining =
         mmrLoop recent_vecs lambda_param k
           (selected ++ [remaining.getD (selectBest
             (candidateScore selected recent_vecs lambda_param) remaining).2 default])
           (remaining.eraseIdx (selectBest
             (candidateScore selected recent_vecs lambda_param) remaining).2)) ∧
    (∀ (selected remaining : List (WardrobeItem × ℝ)) (recent_vecs : List (List ℝ))
       (lambda_param : ℝ),
       (∃ j, j < remaining.length ∧ ∃ s, candidateScore selected recent_vecs
         lambda_param (remaining.getD j default) = some s ∧ -1 < s) →
       (selectBest (candidateScore selected recent_vecs lambda_param) remaining).2 <
           remaining.length ∧
         candidateScore selected recent_vecs lambda_param
           (remaining.getD (selectBest (candidateScore selected recent_vecs
             lambda_param) remaining).2 default) =
             some (selectBest (candidateScore selected recent_vecs lambda_param)
               remaining).1 ∧
         (∀ j, j < remaining.length → ∀ s, candidateScore selected recent_vecs
           lambda_param (remaining.getD j default) = some s →
           s ≤ (selectBest (candidateScore selected recent_vecs lambda_param)
             remaining).1) ∧
         (∀ j, j < remaining.length → ∀ s, candidateScore selected recent_vecs
           lambda_param (remaining.getD j default) = some s →
           (selectBest (candidateScore selected recent_vecs lambda_param)
             remaining).1 ≤ s →
           (selectBest (candidateScore selected recent_vecs lambda_param)
             remaining).2 ≤ j)) := by
  refine ⟨fun selected recent_vecs lambda_param item relevance item_vec h => ?_,
    fun item_vec => ⟨rfl, rfl⟩,
    fun selected remaining recent_vecs lambda_param k h => ?_,
    fun selected remaining recent_vecs lambda_param hex => ?_⟩
  · simp [candidateScore, h]
  · rw [mmrLoop, dif_neg h]
  · exact selectBest_argmax _ _ hex

/-- Counterexample to C1 as stated: with the -1 sentinel, when every score
is at most -1 the loop pops index 0 even though candidate 1 has the
strictly highest score; the moved candidate is not the one with the highest
score. -/
theorem apply_mmr_highest_score_counterexample :
    apply_mmr
        [(⟨1, 7, ProcessingStatus.completed, some "[0, 1]"⟩, -10),
         (⟨2, 7, ProcessingStatus.completed, some "[1, 0]"⟩, -1)]
        [1, 0] ["[1, 0]"] 1 0.7 =
      [(⟨1, 7, ProcessingStatus.completed, some "[0, 1]"⟩, -10)] ∧
    ∃ s0 s1 : ℝ,
      candidateScore [] [[(1 : ℝ), 0]] 0.7
          (⟨1, 7, ProcessingStatus.completed, some "[0, 1]"⟩, -10) = some s0 ∧
      candidateScore [] [[(1 : ℝ), 0]] 0.7
          (⟨2, 7, ProcessingStatus.completed, some "[1, 0]"⟩, -1) = some s1 ∧
      s0 < s1 := by
  have hfA : candidateScore [] [[(1 : ℝ), 0]] 0.7
      (⟨1, 7, ProcessingStatus.completed, some "[0, 1]"⟩, -10) = some (-7) := by
    rw [candidateScore]
    rw [truthyVec_e2]
    simp only [maxSimSelected, maxSimRecent, List.foldl_cons, List.foldl_nil,
      cos_e2_e1, mmr_score]
    norm_num
  have hfB : candidateScore [] [[(1 : ℝ), 0]] 0.7
      (⟨2, 7, ProcessingStatus.completed, some "[1, 0]"⟩, -1) = some (-1) := by
    rw [candidateScore]
    rw [truthyVec_e1]
    simp only [maxSimSelected, maxSimRecent, List.foldl_cons, List.foldl_nil,
      cos_e1_e1, mmr_score]
    norm_num
  have hsel : selectBest (candidateScore [] [[(1 : ℝ), 0]] 0.7)
      [(⟨1, 7, ProcessingStatus.completed, some "[0, 1]"⟩, -10),
       (⟨2, 7, ProcessingStatus.completed, some "[1, 0]"⟩, -1)] = (-1, 0) := by
    apply selectBest_fallback
    intro j hj s hfs
    simp only [List.length_cons, List.length_nil] at hj
    match j, hj with
    | 0, _ =>
      rw [List.getD_cons_zero, hfA] at hfs
      cases hfs
      norm_num
    | 1, _ =>
      rw [List.getD_cons_succ, List.getD_cons_zero, hfB] at hfs
      cases hfs
      norm_num
  have hrecent : (["[1, 0]"].filterMap fun s => truthyVec (some s)) = [[(1 : ℝ), 0]] := by
    simp [List.filterMap_cons, truthyVec_e1]
  constructor
  · rw [apply_mmr, if_neg (by simp)]
    simp only [hrecent]
    rw [mmrLoop, dif_neg (by simp), hsel]
    simp only [List.getD_cons_zero, List.eraseIdx_cons_zero, List.nil_append]
    rw [mmrLoop, dif_pos (by simp)]
  · exact ⟨-7, -1, hfA, hfB, by norm_num⟩

/-! ## C2: unparsable candidates in apply_mmr -/

/-- C2 (amended): a candidate whose stored embedding does not re-parse to a
truthy vector contributes nothing to any other candidate's diversity
penalty and is never chosen through the score comparison (when any
candidate scores above the -1 sentinel, the chosen index has a parsable
embedding); but when no candidate scores above the sentinel -- in
particular when every remaining embedding is unparsable -- best_idx stays
0 and the head of the remaining list is selected regardless. -/
theorem apply_mmr_unparsable_spec :
    (∀ (item_vec : List ℝ) (sel1 sel2 : List (WardrobeItem × ℝ))
       (c : WardrobeItem × ℝ),
       truthyVec c.1.item_embedding = none →
       maxSimSelected item_vec (sel1 ++ c :: sel2) =
         maxSimSelected item_vec (sel1 ++ sel2)) ∧
    (∀ (selected : List (WardrobeItem × ℝ)) (recent_vecs : List (List ℝ))
       (lambda_param : ℝ) (c : WardrobeItem × ℝ),
       truthyVec c.1.item_embedding = none →
       candidateScore selected recent_vecs lambda_param c = none) ∧
    (∀ (selected remaining : List (WardrobeItem × ℝ)) (recent_vecs : List (List ℝ))
       (lambda_param : ℝ),
       (∃ j, j < remaining.length ∧ ∃ s, candidateScore selected recent_vecs
         lambda_param (remaining.getD j default) = some s ∧ -1 < s) →
       candidateScore selected recent_vecs lambda_param
         (remaining.getD (selectBest (candidateScore selected recent_vecs
           lambda_param) remaining).2 default) ≠ none) ∧
    (∀ (selected remaining : List (WardrobeItem × ℝ)) (recent_vecs : List (List ℝ))
       (lambda_param : ℝ),
       (∀ j, j < remaining.length → ∀ s, candidateScore selected recent_vecs
         lambda_param (remaining.getD j default) = some s → s ≤ -1) →
       selectBest (candidateScore selected recent_vecs lambda_param) remaining =
         (-1, 0)) := by
  refine ⟨fun item_vec sel1 sel2 c h => ?_,
    fun selected recent_vecs lambda_param c h => ?_,
    fun selected remaining recent_vecs lambda_param hex => ?_,
    fun selected remaining recent_vecs lambda_param hall => ?_⟩
  · simp [maxSimSelected, List.foldl_append, List.foldl_cons, h]
  · simp [candidateScore, h]
  · have h2 := (selectBest_argmax _ _ hex).2.1
    rw [h2]
    simp
  · exact selectBest_fallback _ _ hall

/-- Counterexample to C2 as stated: a lone candidate whose stored embedding
is not JSON is still returned by apply_mmr, through the unconditional pop
of best_idx = 0. -/
theorem apply_mmr_unparsable_counterexample :
    parse_embedding (some "oops") = none ∧
    apply_mmr [(⟨3, 7, ProcessingStatus.completed, some "oops"⟩, 0.9)]
        [1, 0] [] 1 0.7 =
      [(⟨3, 7, ProcessingStatus.completed, some "oops"⟩, 0.9)] := by
  refine ⟨by decide, ?_⟩
  have hsel : selectBest (candidateScore [] [] 0.7)
      [(⟨3, 7, ProcessingStatus.completed, some "oops"⟩, (0.9 : ℝ))] = (-1, 0) := by
    apply selectBest_fallback
    intro j hj s hfs
    simp only [List.length_cons, List.length_nil] at hj
    match j, hj with
    | 0, _ =>
      rw [List.getD_cons_zero] at hfs
      rw [candidateScore, truthyVec_oops] at hfs
      cases hfs
  rw [apply_mmr, if_neg (by simp)]
  simp only [List.filterMap_nil]
  rw [mmrLoop, dif_neg (by simp), hsel]
  simp only [List.getD_cons_zero, List.eraseIdx_cons_zero, List.nil_append]
  rw [mmrLoop, dif_pos (by simp)]

/-- Witness for C7: a length-mismatched pair gives 0.0; a nonzero vector
paired with itself gives exactly 1. -/
theorem cosine_similarity_spec_witness :
    cosine_similarity [(1 : ℝ), 2] [1, 2, 3] = 0 ∧
    cosine_similarity [(3 : ℝ), 4] [3, 4] = 1 :=
  ⟨cosine_similarity_spec.1 _ _ (Or.inr (Or.inr (by simp))),
   cosine_similarity_spec.2.2.2.2 _ ⟨3, by simp, by norm_num⟩⟩

/-! ## C6: vector_search_wardrobe_items -/

/-- C6 (amended): the search returns at most limit pairs, in non-increasing
(not strictly decreasing: ties are possible) similarity order; it never
returns an item whose id is in the exclusion list, never returns a pair
below the minimum-similarity floor, and returns the empty list (it cannot
fail) when no item of the table matches the partition filter. -/
theorem vector_search_spec :
    ∀ (db : List WardrobeItem) (user_id : ℤ) (query_embedding : List ℝ)
      (limit : ℕ) (exclude_ids : Option (List ℤ)) (min_similarity : ℝ),
      (vector_search_wardrobe_items db user_id query_embedding limit exclude_ids
          min_similarity).length ≤ limit ∧
      List.Chain' (fun a b : WardrobeItem × ℝ => b.2 ≤ a.2)
        (vector_search_wardrobe_items db user_id query_embedding limit exclude_ids
          min_similarity) ∧
      (∀ p ∈ vector_search_wardrobe_items db user_id query_embedding limit
          exclude_ids min_similarity, p.1.id ∉ exclude_ids.getD []) ∧
      (∀ p ∈ vector_search_wardrobe_items db user_id query_embedding limit
          exclude_ids min_similarity, min_similarity ≤ p.2) ∧
      ((∀ it ∈ db, ¬(it.user_id = user_id ∧
          it.processing_status = ProcessingStatus.completed ∧
          it.item_embedding ≠ none)) →
        vector_search_wardrobe_items db user_id query_embedding limit exclude_ids
          min_similarity = []) := by
  intro db user_id query_embedding limit exclude_ids min_similarity
  have hdef : vector_search_wardrobe_items db user_id query_embedding limit
      exclude_ids min_similarity =
      (List.insertionSort (keyDesc Prod.snd)
        ((applyExclusion exclude_ids (partitionFilter db user_id)).filterMap
          (scoreItem query_embedding min_similarity))).take limit := rfl
  have hmem : ∀ p, p ∈ vector_search_wardrobe_items db user_id query_embedding limit
      exclude_ids min_similarity →
      p ∈ (applyExclusion exclude_ids (partitionFilter db user_id)).filterMap
        (scoreItem query_embedding min_similarity) := by
    intro p hp
    rw [hdef] at hp
    exact (List.perm_insertionSort (keyDesc Prod.snd) _).mem_iff.mp
      (List.mem_of_mem_take hp)
  have hshape : ∀ p ∈ (applyExclusion exclude_ids (partitionFilter db user_id)).filterMap
      (scoreItem query_embedding min_similarity),
      p.1 ∈ applyExclusion exclude_ids (partitionFilter db user_id) ∧
        min_similarity ≤ p.2 := by
    intro p hp
    obtain ⟨it, hit, hsome⟩ := List.mem_filterMap.mp hp
    cases htv : truthyVec it.item_embedding with
    | none => rw [scoreItem, htv] at hsome; cases hsome
    | some v =>
      rw [scoreItem, htv] at hsome
      simp only [] at hsome
      by_cases hms : min_similarity ≤ cosine_similarity query_embedding v
      · rw [if_pos hms] at hsome
        cases hsome
        exact ⟨hit, hms⟩
      · rw [if_neg hms] at hsome
        cases hsome
  have hexcl : ∀ it : WardrobeItem,
      it ∈ applyExclusion exclude_ids (partitionFilter db user_id) →
      it.id ∉ exclude_ids.getD [] := by
    intro it hit
    cases exclude_ids with
    | none => simp
    | some l =>
      simp only [Option.getD_some]
      by_cases hl : l = []
      · subst hl; simp
      · rw [applyExclusion, if_neg hl] at hit
        have := (List.mem_filter.mp hit).2
        simpa using this
  refine ⟨?_, ?_, ?_, ?_, ?_⟩
  · rw [hdef]
    exact List.length_take_le limit _
  · rw [hdef]
    have hsorted : List.Sorted (keyDesc Prod.snd)
        (List.insertionSort (keyDesc Prod.snd)
          ((applyExclusion exclude_ids (partitionFilter db user_id)).filterMap
            (scoreItem query_embedding min_similarity))) :=
      List.sorted_insertionSort _ _
    exact (hsorted.sublist (List.take_sublist limit _)).chain'
  · intro p hp
    exact hexcl p.1 (hshape p (hmem p hp)).1
  · intro p hp
    exact (hshape p (hmem p hp)).2
  · intro hnone
    have hb : partitionFilter db user_id = [] := by
      rw [partitionFilter, List.filter_eq_nil_iff]
      intro a ha
      simpa using hnone a ha
    have hi : applyExclusion exclude_ids (partitionFilter db user_id) = [] := by
      rw [hb]
      cases exclude_ids with
      | none => rfl
      | some l =>
        by_cases hl : l = []
        · simp [applyExclusion, hl]
        · simp [applyExclusion, hl]
    rw [hdef, hi]
    simp

/-- Counterexample to C6 as stated: two items with identical embeddings get
identical similarities, so the returned order is not strictly decreasing. -/
theorem vector_search_strict_order_counterexample :
    ((vector_search_wardrobe_items
        [⟨1, 7, ProcessingStatus.completed, some "[1, 0]"⟩,
         ⟨2, 7, ProcessingStatus.completed, some "[1, 0]"⟩]
        7 [1, 0] 2 none 0).map Prod.snd) = [1, 1] ∧
    ¬ List.Chain' (fun a b : ℝ => a > b)
      ((vector_search_wardrobe_items
        [⟨1, 7, ProcessingStatus.completed, some "[1, 0]"⟩,
         ⟨2, 7, ProcessingStatus.completed, some "[1, 0]"⟩]
        7 [1, 0] 2 none 0).map Prod.snd) := by
  have hsc : ∀ n : ℤ, scoreItem [(1 : ℝ), 0] 0
      (⟨n, 7, ProcessingStatus.completed, some "[1, 0]"⟩ : WardrobeItem) =
      some (⟨n, 7, ProcessingStatus.completed, some "[1, 0]"⟩, 1) := by
    intro n
    rw [scoreItem]
    rw [truthyVec_e1]
    simp [cos_e1_e1]
  have hpf : partitionFilter
      [⟨1, 7, ProcessingStatus.completed, some "[1, 0]"⟩,
       ⟨2, 7, ProcessingStatus.completed, some "[1, 0]"⟩] 7 =
      [⟨1, 7, ProcessingStatus.completed, some "[1, 0]"⟩,
       ⟨2, 7, ProcessingStatus.completed, some "[1, 0]"⟩] := by
    simp [partitionFilter]
  have heval : vector_search_wardrobe_items
      [⟨1, 7, ProcessingStatus.completed, some "[1, 0]"⟩,
       ⟨2, 7, ProcessingStatus.completed, some "[1, 0]"⟩]
      7 [1, 0] 2 none 0 =
      [(⟨1, 7, ProcessingStatus.completed, some "[1, 0]"⟩, 1),
       (⟨2, 7, ProcessingStatus.completed, some "[1, 0]"⟩, 1)] := by
    show (List.insertionSort (keyDesc Prod.snd)
        ((applyExclusion none (partitionFilter
          [⟨1, 7, ProcessingStatus.completed, some "[1, 0]"⟩,
           ⟨2, 7, ProcessingStatus.completed, some "[1, 0]"⟩] 7)).filterMap
          (scoreItem [1, 0] 0))).take 2 = _
    rw [hpf]
    rw [show applyExclusion none
        [(⟨1, 7, ProcessingStatus.completed, some "[1, 0]"⟩ : WardrobeItem),
         ⟨2, 7, ProcessingStatus.completed, some "[1, 0]"⟩] =
        [⟨1, 7, ProcessingStatus.completed, some "[1, 0]"⟩,
         ⟨2, 7, ProcessingStatus.completed, some "[1, 0]"⟩] from rfl]
    rw [List.filterMap_cons, hsc 1, List.filterMap_cons, hsc 2, List.filterMap_nil]
    simp only [List.insertionSort, List.orderedInsert]
    rw [if_pos (by norm_num [keyDesc])]
    rfl
  rw [heval]
  norm_num [List.chain'_cons]

/-! ## C8: get_recently_used_item_ids -/

theorem mem_foldl_dedupInsert : ∀ (l : List Json) (acc : List Json) (j : Json),
    j ∈ l.foldl dedupInsert acc → j ∈ acc ∨ j ∈ l := by
  intro l
  induction l with
  | nil => intro acc j h; exact Or.inl h
  | cons x xs ih =>
    intro acc j h
    rw [List.foldl_cons] at h
    rcases ih (dedupInsert acc x) j h with hin | hin
    · rw [dedupInsert] at hin
      by_cases hx : x ∈ acc
      · rw [if_pos hx] at hin
        exact Or.inl hin
      · rw [if_neg hx] at hin
        rcases List.mem_append.mp hin with h1 | h1
        · exact Or.inl h1
        · rw [List.mem_singleton] at h1
          subst h1
          exact Or.inr (List.mem_cons_self _ _)
    · exact Or.inr (List.mem_cons_of_mem _ hin)

theorem mem_foldl_dedupInsert_complete : ∀ (l : List Json) (acc : List Json) (j : Json),
    j ∈ acc ∨ j ∈ l → j ∈ l.foldl dedupInsert acc := by
  intro l
  induction l with
  | nil =>
    intro acc j h
    rcases h with h | h
    · exact h
    · cases h
  | cons x xs ih =>
    intro acc j h
    rw [List.foldl_cons]
    have hacc : j ∈ acc → j ∈ dedupInsert acc x := by
      intro hj
      rw [dedupInsert]
      by_cases hx : x ∈ acc
      · rw [if_pos hx]; exact hj
      · rw [if_neg hx]; exact List.mem_append_left _ hj
    rcases h with h | h
    · exact ih _ j (Or.inl (hacc h))
    · rcases List.mem_cons.mp h with rfl | h2
      · refine ih _ j (Or.inl ?_)
        rw [dedupInsert]
        by_cases hx : j ∈ acc
        · rw [if_pos hx]; exact hx
        · rw [if_neg hx]; simp
      · exact ih _ j (Or.inr h2)

theorem mem_foldl_records_complete : ∀ (recs : List Recommendation) (acc : List Json)
    (j : Json),
    j ∈ acc ∨ (∃ rec ∈ recs, j ∈ recordItemIdGroups rec.wardrobe_item_ids) →
    j ∈ recs.foldl
      (fun acc rec => (recordItemIdGroups rec.wardrobe_item_ids).foldl dedupInsert acc)
      acc := by
  intro recs
  induction recs with
  | nil =>
    intro acc j h
    rcases h with h | ⟨rec, hrec, _⟩
    · exact h
    · cases hrec
  | cons r rs ih =>
    intro acc j h
    rw [List.foldl_cons]
    rcases h with h | ⟨rec, hrec, hj⟩
    · exact ih _ j (Or.inl (mem_foldl_dedupInsert_complete _ acc j (Or.inl h)))
    · rcases List.mem_cons.mp hrec with rfl | h2
      · exact ih _ j (Or.inl (mem_foldl_dedupInsert_complete _ acc j (Or.inr hj)))
      · exact ih _ j (Or.inr ⟨rec, h2, hj⟩)

theorem mem_foldl_records : ∀ (recs : List Recommendation) (acc : List Json) (j : Json),
    j ∈ recs.foldl
      (fun acc rec => (recordItemIdGroups rec.wardrobe_item_ids).foldl dedupInsert acc)
      acc →
    j ∈ acc ∨ ∃ rec ∈ recs, j ∈ recordItemIdGroups rec.wardrobe_item_ids := by
  intro recs
  induction recs with
  | nil => intro acc j h; exact Or.inl h
  | cons r rs ih =>
    intro acc j h
    rw [List.foldl_cons] at h
    rcases ih _ j h with hin | ⟨rec, hrec, hj⟩
    · rcases mem_foldl_dedupInsert _ acc j hin with h1 | h1
      · exact Or.inl h1
      · exact Or.inr ⟨r, List.mem_cons_self _ _, h1⟩
    · exact Or.inr ⟨rec, List.mem_cons_of_mem _ hrec, hj⟩

/-- C8: the cooldown tracker reads only the num_recommendations most recent
records of the given user (stable-sorted by created_at descending); every
returned id comes from the decoded inner id lists of one of those records,
and conversely the pre-truncation set holds every id of every group of the
scanned records (their union); undecodable stored id lists contribute
nothing (and never fail); and at most max_items ids are returned however
large the history is.  Being a pure function of its inputs, the truncation
is deterministic. -/
theorem get_recently_used_spec :
    ∀ (db : List Recommendation) (user_id : ℤ) (num_recommendations max_items : ℕ),
      (get_recently_used_item_ids db user_id num_recommendations
        max_items).length ≤ max_items ∧
      (∀ j ∈ get_recently_used_item_ids db user_id num_recommendations max_items,
        ∃ rec ∈ recentRecsOf db user_id num_recommendations,
          j ∈ recordItemIdGroups rec.wardrobe_item_ids) ∧
      (∀ j, (∃ rec ∈ recentRecsOf db user_id num_recommendations,
          j ∈ recordItemIdGroups rec.wardrobe_item_ids) →
        j ∈ (recentRecsOf db user_id num_recommendations).foldl
          (fun acc rec =>
            (recordItemIdGroups rec.wardrobe_item_ids).foldl dedupInsert acc) []) ∧
      (∀ s : String, json_loads s = none → recordItemIdGroups (some s) = []) ∧
      recentRecsOf db user_id num_recommendations =
        (List.insertionSort (keyDesc Recommendation.created_at)
          (db.filter (fun r => decide (r.user_id = user_id)))).take
          num_recommendations := by
  intro db user_id num_recommendations max_items
  refine ⟨List.length_take_le _ _, fun j hj => ?_,
    fun j hj => mem_foldl_records_complete _ [] j (Or.inr hj), fun s h => ?_, rfl⟩
  · have hj2 : j ∈ (recentRecsOf db user_id num_recommendations).foldl
        (fun acc rec => (recordItemIdGroups rec.wardrobe_item_ids).foldl dedupInsert acc)
        [] := List.mem_of_mem_take hj
    rcases mem_foldl_records _ [] j hj2 with h1 | h1
    · cases h1
    · exact h1
  · by_cases hs : s = "" <;> simp [recordItemIdGroups, hs, h]

/-- Witness for C8 on a concrete history: four records, one malformed, one
of another user, one beyond the lookback; the result is the deduplicated
ids of the two most recent records of user 7, within the cap. -/
theorem get_recently_used_spec_witness :
    (get_recently_used_item_ids
      [⟨7, some "[[1, 2], [2]]", 10⟩, ⟨7, some "oops", 9⟩,
       ⟨8, some "[[99]]", 8⟩, ⟨7, some "[[3]]", 1⟩] 7 2 15).length ≤ 15 ∧
    get_recently_used_item_ids
      [⟨7, some "[[1, 2], [2]]", 10⟩, ⟨7, some "oops", 9⟩,
       ⟨8, some "[[99]]", 8⟩, ⟨7, some "[[3]]", 1⟩] 7 2 15 =
      [.num 1, .num 2] :=
  ⟨(get_recently_used_spec
      [⟨7, some "[[1, 2], [2]]", 10⟩, ⟨7, some "oops", 9⟩,
       ⟨8, some "[[99]]", 8⟩, ⟨7, some "[[3]]", 1⟩] 7 2 15).1, by decide⟩

/-! ## The hybrid ranking block: C3, C4, C5 -/

theorem pyRound_eq_low (x : ℝ) (n : ℤ) (h1 : (n : ℝ) ≤ x) (h2 : x < n + 1 / 2) :
    pyRound x = n := by
  have hfloor : ⌊x⌋ = n := by
    rw [Int.floor_eq_iff]
    refine ⟨h1, by push_cast; linarith⟩
  simp only [pyRound, hfloor]
  rw [if_pos (by push_cast; linarith)]

theorem round3_eq_low (x : ℝ) (n : ℤ) (h1 : (n : ℝ) ≤ x * 1000)
    (h2 : x * 1000 < n + 1 / 2) : round3 x = n / 1000 := by
  rw [round3, pyRound_eq_low (x * 1000) n h1 h2]

theorem round3_074 : round3 (0.74 : ℝ) = 0.74 := by
  rw [round3_eq_low (0.74 : ℝ) 740 (by norm_num) (by norm_num)]
  norm_num

theorem round3_056 : round3 (0.56 : ℝ) = 0.56 := by
  rw [round3_eq_low (0.56 : ℝ) 560 (by norm_num) (by norm_num)]
  norm_num

theorem round3_07401 : round3 (0.7401 : ℝ) = 0.74 := by
  rw [round3_eq_low (0.7401 : ℝ) 740 (by norm_num) (by norm_num)]
  norm_num

theorem round3_07404 : round3 (0.7404 : ℝ) = 0.74 := by
  rw [round3_eq_low (0.7404 : ℝ) 740 (by norm_num) (by norm_num)]
  norm_num

theorem assignRanks_map_rank : ∀ (l : List ScoredOutfit) (m : ℕ),
    (assignRanks (m : ℤ) l).map (fun r => r.rank) =
      (List.range' m l.length).map (fun i : ℕ => (i : ℤ)) := by
  intro l
  induction l with
  | nil => intro m; simp [assignRanks]
  | cons s rest ih =>
    intro m
    rw [assignRanks, List.map_cons, List.length_cons, List.range'_succ, List.map_cons]
    refine congrArg₂ List.cons rfl ?_
    have hcast : ((m : ℤ) + 1) = ((m + 1 : ℕ) : ℤ) := by push_cast; ring
    rw [hcast, ih (m + 1)]

theorem assignRanks_id_eq_rank : ∀ (l : List ScoredOutfit) (n : ℤ),
    ∀ r ∈ assignRanks n l, r.scored.outfit.outfit_id = r.rank := by
  intro l
  induction l with
  | nil => intro n r hr; cases hr
  | cons s rest ih =>
    intro n r hr
    rw [assignRanks] at hr
    rcases List.mem_cons.mp hr with rfl | hr2
    · rfl
    · exact ih (n + 1) r hr2

theorem assignRanks_map_key : ∀ (l : List ScoredOutfit) (n : ℤ),
    (assignRanks n l).map (fun r => r.scored.combined_score) =
      l.map (fun s => s.combined_score) := by
  intro l
  induction l with
  | nil => intro n; rfl
  | cons s rest ih => intro n; rw [assignRanks, List.map_cons, List.map_cons, ih]

/-! ### C3: average retrieval relevance of an outfit -/

/-- C3 (amended): an outfit's average relevance is the neutral 0.5 exactly
when the retrieval score map or the outfit's member id list is empty
(falsy); otherwise every member id is looked up with the 0.0 default and
the mean of those values is taken, so a nonempty group whose members each
have a known score gets the mean of those scores, while a nonempty group
with no known member (and a nonempty map) gets 0.0, not 0.5.  The rounded
value is stored as vector_relevance. -/
theorem avg_relevance_spec :
    (∀ (item_scores : List (ℤ × ℝ)) (item_ids : List ℤ),
       item_scores = [] ∨ item_ids = [] → avgRelevance item_scores item_ids = 0.5) ∧
    (∀ (item_scores : List (ℤ × ℝ)) (item_ids : List ℤ),
       item_scores ≠ [] → item_ids ≠ [] →
       avgRelevance item_scores item_ids =
         (item_ids.map (fun iid => ((item_scores.lookup iid).getD 0))).sum /
           (item_ids.length : ℝ)) ∧
    (∀ (item_scores : List (ℤ × ℝ)) (o : Outfit),
       (scoreOutfit item_scores o).vector_relevance =
         round3 (avgRelevance item_scores o.wardrobe_item_ids)) := by
  refine ⟨fun item_scores item_ids h => ?_, fun item_scores item_ids h1 h2 => ?_,
    fun item_scores o => rfl⟩
  · rw [avgRelevance, if_neg]
    rintro ⟨hs, hi⟩
    rcases h with h | h
    · exact hs h
    · exact hi h
  · rw [avgRelevance, if_pos ⟨h1, h2⟩]
    simp only []
    rw [if_pos (by simpa using h2), List.length_map]

/-- Counterexample to C3 as stated: with a nonempty score map, a group
whose single member has no known score gets average relevance 0.0, not the
claimed neutral 0.5. -/
theorem avg_relevance_counterexample :
    List.lookup (2 : ℤ) [((1 : ℤ), (0.8 : ℝ))] = none ∧
    avgRelevance [((1 : ℤ), (0.8 : ℝ))] [2] = 0 ∧ (0 : ℝ) ≠ 0.5 := by
  refine ⟨by simp [List.lookup], ?_, by norm_num⟩
  rw [avgRelevance, if_pos (by simp)]
  simp [List.lookup]

/-! ### C4: the fused score and its ordering -/

/-- C4 (amended): the stored combined score is round3 of
0.6 * avgRelevance + 0.4 * composer confidence (the claim's formula,
rounded to 3 decimals before it is stored and used as the sort key); the
ranked output is non-increasing in that stored, rounded score; and the
claim's concrete example holds: avgRelevance 0.9 / confidence 0.5 (fused
0.74) is ranked rank 1, above avgRelevance 0.3 / confidence 0.95 (fused
0.56). -/
theorem rank_outfits_fused_spec :
    (∀ (item_scores : List (ℤ × ℝ)) (o : Outfit),
       (scoreOutfit item_scores o).combined_score =
         round3 (0.6 * avgRelevance item_scores o.wardrobe_item_ids +
           0.4 * o.confidence_score.getD 0.5)) ∧
    (∀ (item_scores : List (ℤ × ℝ)) (outfits : List Outfit),
       List.Chain' (fun a b : RankedOutfit =>
         b.scored.combined_score ≤ a.scored.combined_score)
         (rank_outfits item_scores outfits)) ∧
    ((rank_outfits [((1 : ℤ), (0.9 : ℝ)), (2, 0.3)]
        [⟨10, [1], some 0.5⟩, ⟨20, [2], some 0.95⟩]).map
        (fun r => (r.rank, r.scored.outfit.wardrobe_item_ids)) =
      [(1, [1]), (2, [2])]) := by
  refine ⟨fun item_scores o => rfl, fun item_scores outfits => ?_, ?_⟩
  · have hsorted : List.Sorted (keyDesc ScoredOutfit.combined_score)
        (List.insertionSort (keyDesc ScoredOutfit.combined_score)
          (outfits.map (scoreOutfit item_scores))) :=
      List.sorted_insertionSort _ _
    have hchain : List.Chain' (fun x y : ℝ => y ≤ x)
        ((rank_outfits item_scores outfits).map
          (fun r => r.scored.combined_score)) := by
      rw [rank_outfits, assignRanks_map_key]
      have hp : (List.insertionSort (keyDesc ScoredOutfit.combined_score)
          (outfits.map (scoreOutfit item_scores))).Pairwise
          (keyDesc ScoredOutfit.combined_score) := hsorted
      have hmap : (((List.insertionSort (keyDesc ScoredOutfit.combined_score)
          (outfits.map (scoreOutfit item_scores)))).map
          (fun s : ScoredOutfit => s.combined_score)).Pairwise
          (fun x y : ℝ => y ≤ x) :=
        List.Pairwise.map _ (fun a b hab => hab) hp
      exact hmap.chain'
    exact (List.chain'_map (fun r : RankedOutfit => r.scored.combined_score)).mp hchain
  · have havgA : avgRelevance [((1 : ℤ), (0.9 : ℝ)), (2, 0.3)] [1] = 0.9 := by
      rw [avgRelevance, if_pos (by simp)]
      simp [List.lookup]
    have havgB : avgRelevance [((1 : ℤ), (0.9 : ℝ)), (2, 0.3)] [2] = 0.3 := by
      rw [avgRelevance, if_pos (by simp)]
      simp [List.lookup]
    have hA : scoreOutfit [((1 : ℤ), (0.9 : ℝ)), (2, 0.3)] ⟨10, [1], some 0.5⟩ =
        ⟨⟨10, [1], some 0.5⟩, round3 0.9, round3 0.5, (0.74 : ℝ)⟩ := by
      simp only [scoreOutfit, havgA, Option.getD_some]
      rw [show (0.6 * 0.9 + 0.4 * 0.5 : ℝ) = 0.74 by norm_num, round3_074]
    have hB : scoreOutfit [((1 : ℤ), (0.9 : ℝ)), (2, 0.3)] ⟨20, [2], some 0.95⟩ =
        ⟨⟨20, [2], some 0.95⟩, round3 0.3, round3 0.95, (0.56 : ℝ)⟩ := by
      simp only [scoreOutfit, havgB, Option.getD_some]
      rw [show (0.6 * 0.3 + 0.4 * 0.95 : ℝ) = 0.56 by norm_num, round3_056]
    rw [rank_outfits, List.map_cons, List.map_cons, List.map_nil, hA, hB]
    simp only [List.insertionSort, List.orderedInsert]
    rw [if_pos (show keyDesc ScoredOutfit.combined_score
      ⟨⟨10, [1], some 0.5⟩, round3 0.9, round3 0.5, (0.74 : ℝ)⟩
      ⟨⟨20, [2], some 0.95⟩, round3 0.3, round3 0.95, (0.56 : ℝ)⟩ by
        show (0.56 : ℝ) ≤ 0.74
        norm_num)]
    rw [assignRanks, assignRanks, assignRanks]
    simp

/-- Counterexample to C4 as stated: two outfits whose unrounded fused
scores differ by less than the rounding resolution get equal stored keys;
the stable sort then keeps the lower unrounded fused score first, so the
output is not ordered by the (unrounded) fused score descending. -/
theorem rank_outfits_fused_order_counterexample :
    ((rank_outfits [((1 : ℤ), (0.5835 : ℝ)), (2, 0.584)]
        [⟨10, [1], some 0.975⟩, ⟨20, [2], some 0.975⟩]).map
        (fun r => r.scored.outfit.wardrobe_item_ids)) = [[1], [2]] ∧
    0.6 * avgRelevance [((1 : ℤ), (0.5835 : ℝ)), (2, 0.584)] [1] +
        0.4 * (0.975 : ℝ) <
      0.6 * avgRelevance [((1 : ℤ), (0.5835 : ℝ)), (2, 0.584)] [2] +
        0.4 * (0.975 : ℝ) := by
  have havgA : avgRelevance [((1 : ℤ), (0.5835 : ℝ)), (2, 0.584)] [1] = 0.5835 := by
    rw [avgRelevance, if_pos (by simp)]
    simp [List.lookup]
  have havgB : avgRelevance [((1 : ℤ), (0.5835 : ℝ)), (2, 0.584)] [2] = 0.584 := by
    rw [avgRelevance, if_pos (by simp)]
    simp [List.lookup]
  constructor
  · have hA : scoreOutfit [((1 : ℤ), (0.5835 : ℝ)), (2, 0.584)] ⟨10, [1], some 0.975⟩ =
        ⟨⟨10, [1], some 0.975⟩, round3 0.5835, round3 0.975, (0.74 : ℝ)⟩ := by
      simp only [scoreOutfit, havgA, Option.getD_some]
      rw [show (0.6 * 0.5835 + 0.4 * 0.975 : ℝ) = 0.7401 by norm_num, round3_07401]
    have hB : scoreOutfit [((1 : ℤ), (0.5835 : ℝ)), (2, 0.584)] ⟨20, [2], some 0.975⟩ =
        ⟨⟨20, [2], some 0.975⟩, round3 0.584, round3 0.975, (0.74 : ℝ)⟩ := by
      simp only [scoreOutfit, havgB, Option.getD_some]
      rw [show (0.6 * 0.584 + 0.4 * 0.975 : ℝ) = 0.7404 by norm_num, round3_07404]
    rw [rank_outfits, List.map_cons, List.map_cons, List.map_nil, hA, hB]
    simp only [List.insertionSort, List.orderedInsert]
    rw [if_pos (show keyDesc ScoredOutfit.combined_score
      ⟨⟨10, [1], some 0.975⟩, round3 0.5835, round3 0.975, (0.74 : ℝ)⟩
      ⟨⟨20, [2], some 0.975⟩, round3 0.584, round3 0.975, (0.74 : ℝ)⟩ by
        show (0.74 : ℝ) ≤ 0.74
        norm_num)]
    rw [assignRanks, assignRanks, assignRanks]
    simp
  · rw [havgA, havgB]
    norm_num

/-! ### C5: rank assignment and stability -/

/-- C5: the ranked output carries ranks exactly 1..M in list order, every
group's outfit_id is rewritten to its rank, the multiset of stored scores
is exactly that of the scored input groups, and the sort is stable: for
every key value, the sub-sequence of groups carrying that stored combined
score is unchanged by the sort, so groups with identical fused scores keep
their original relative order (the order is a pure function of the input,
never hash-dependent). -/
theorem rank_outfits_rank_spec :
    ∀ (item_scores : List (ℤ × ℝ)) (outfits : List Outfit),
      (rank_outfits item_scores outfits).map (fun r => r.rank) =
        (List.range' 1 outfits.length).map (fun i : ℕ => (i : ℤ)) ∧
      (∀ r ∈ rank_outfits item_scores outfits,
        r.scored.outfit.outfit_id = r.rank) ∧
      ((rank_outfits item_scores outfits).map
          (fun r => r.scored.combined_score)).Perm
        ((outfits.map (scoreOutfit item_scores)).map
          (fun s => s.combined_score)) ∧
      (∀ k : ℝ,
        (List.insertionSort (keyDesc ScoredOutfit.combined_score)
            (outfits.map (scoreOutfit item_scores))).filter
            (fun s => decide (s.combined_score = k)) =
          (outfits.map (scoreOutfit item_scores)).filter
            (fun s => decide (s.combined_score = k))) := by
  intro item_scores outfits
  refine ⟨?_, ?_, ?_, fun k => insertionSort_filter_eq_key _ _ k⟩
  · rw [rank_outfits, show (1 : ℤ) = ((1 : ℕ) : ℤ) from rfl, assignRanks_map_rank,
      List.length_insertionSort, List.length_map]
  · intro r hr
    exact assignRanks_id_eq_rank _ 1 r hr
  · rw [rank_outfits, assignRanks_map_key]
    exact (List.perm_insertionSort _ _).map _


end Drip
